import Mathlib

/-!
Verification of the parallax-compiler text-patching utility
(`src/fix_class_context.py`).

The script performs one read-transform-write cycle over one file:

  with open('src/class_context_extractor.cpp', 'r') as f:
      content = f.read()
  content = content.replace('#include <set>', '#include <set>')
  with open('src/class_context_extractor.cpp', 'w') as f:
      f.write(content)

We embed the file content as `List Char`, Python's `str.replace` as
`pyReplace` (non-overlapping, left-to-right, with CPython's empty-pattern
insertion behaviour), the sequential application of an ordered rule list
as `applyRules`, and the whole read-transform-write pipeline as
`applyPatch` over an explicit filesystem map. The environment's write
behaviour (Python's `open(path, 'w')` truncates the file and then writes
the new content sequentially) is modelled by the `WriteOutcome` parameter:
`complete` is an undisturbed run, `failAfter k` is a write that fails
after `k` characters have been written to the truncated file.
-/

/-- File content held in memory, one character per Python character. -/
abbrev Content := List Char

/-- A substitution rule: an ordered (pattern, replacement) pair. -/
abbrev Rule := Content × Content

/-- A filesystem: maps each path to the content of the file there, or
`none` when no file exists at that path. -/
abbrev FileSys := String → Option Content

/-- Core scan of Python's `str.replace` for a non-empty pattern
`p :: ps`: scan left to right; at a match, emit the replacement and
resume immediately after the consumed match; otherwise keep the head
character and continue with the tail. -/
def replaceCore (p : Char) (ps repl : Content) : Content → Content
  | [] => []
  | c :: rest =>
    if (p :: ps).isPrefixOf (c :: rest) then
      repl ++ replaceCore p ps repl (rest.drop ps.length)
    else
      c :: replaceCore p ps repl rest
  termination_by l => l.length
  decreasing_by
  · simp only [List.length_drop, List.length_cons]
    omega
  · simp

/-- Python's `str.replace pat repl` on `s` (the `content.replace` call of
the source, with the operands generalised): for an empty pattern CPython
inserts the replacement before every character and once at the end; for a
non-empty pattern it is the left-to-right non-overlapping scan. -/
def pyReplace (s pat repl : Content) : Content :=
  match pat with
  | [] => List.foldr (fun c acc => repl ++ c :: acc) repl s
  | p :: ps => replaceCore p ps repl s

/-- Apply an ordered rule list to a content value, each rule operating on
the output of the previous one — the source's repeated reassignment
`content = content.replace(...)`. -/
def applyRules (rules : List Rule) (content : Content) : Content :=
  rules.foldl (fun c r => pyReplace c r.1 r.2) content

/-- The errors the pipeline can surface. -/
inductive PatchError where
  | NotFound
  | WriteFailure
  deriving DecidableEq, Repr

/-- Behaviour of the environment during the write step: either the write
completes, or it fails after `k` characters of the new content have been
written to the already-truncated file. -/
inductive WriteOutcome where
  | complete
  | failAfter (k : Nat)
  deriving DecidableEq, Repr

/-- Outcome of one run: the reported result and the final filesystem. -/
structure PatchResult where
  result : Except PatchError Unit
  fs : FileSys

/-- The whole pipeline of the source script, with the hardcoded path and
rule list generalised to parameters: open for read (failing with
`NotFound` when the path has no file, before any write), read the whole
content, apply the rules in order, then open for write — which truncates
the target — and write the new content, the write either completing or
failing after `k` written characters as dictated by `w`. -/
def applyPatch (fs : FileSys) (path : String) (rules : List Rule)
    (w : WriteOutcome) : PatchResult :=
  match fs path with
  | none => ⟨.error .NotFound, fs⟩
  | some content =>
    let newContent := applyRules rules content
    match w with
    | .complete =>
      ⟨.ok (), fun p => if p = path then some newContent else fs p⟩
    | .failAfter k =>
      ⟨.error .WriteFailure,
        fun p => if p = path then some (newContent.take k) else fs p⟩

/-- The path hardcoded in the source script. -/
def scriptPath : String := "src/class_context_extractor.cpp"

/-- The single hardcoded rule of the source script: replace the string
`#include <set>` with itself. -/
def scriptRules : List Rule :=
  [("#include <set>".data, "#include <set>".data)]

/-! Concrete filesystems used to instantiate the general theorems. -/

/-- A filesystem with a single two-character file. -/
def fsDemo : FileSys := fun p => if p = "demo.txt" then some "xy".data else none

/-- A filesystem with a single file holding the content `hello`. -/
def fsHello : FileSys :=
  fun p => if p = "demo.txt" then some "hello".data else none

/-- A filesystem with only the file `a.txt`, holding `x`. -/
def fsDetA : FileSys := fun p => if p = "a.txt" then some "x".data else none

/-- A filesystem with the file `b.txt` holding `x` and an unrelated extra
file. -/
def fsDetB : FileSys :=
  fun p =>
    if p = "b.txt" then some "x".data
    else if p = "other.txt" then some "zzz".data
    else none

/-- A filesystem with no files at all. -/
def fsEmpty : FileSys := fun _ => none

/-! Helper lemmas about the replacement scan. -/

/-- If the (non-empty) pattern occurs nowhere in the content, the scan
returns the content unchanged. -/
theorem replaceCore_no_match (p : Char) (ps repl s : Content)
    (h : ¬ (p :: ps) <:+: s) : replaceCore p ps repl s = s := by
  induction s with
  | nil => simp [replaceCore]
  | cons c rest ih =>
    rw [replaceCore, if_neg, ih]
    · intro hi
      exact h (List.infix_cons hi)
    · intro hp
      exact h ((List.isPrefixOf_iff_prefix.mp hp).isInfix)

/-- If the pattern does not occur in the content, `pyReplace` is the
identity on that content. -/
theorem pyReplace_absent_pattern (s pat repl : Content) (h : ¬ pat <:+: s) :
    pyReplace s pat repl = s := by
  match pat with
  | [] => exact absurd List.nil_infix h
  | p :: ps => exact replaceCore_no_match p ps repl s h

/-- Replacing a non-empty pattern with itself rewrites the content
verbatim, bounded-length version used for the induction. -/
theorem replaceCore_self_aux (p : Char) (ps : Content) :
    ∀ (n : Nat) (s : Content), s.length ≤ n →
      replaceCore p ps (p :: ps) s = s := by
  intro n
  induction n with
  | zero =>
    intro s hs
    have : s = [] := List.eq_nil_of_length_eq_zero (Nat.le_zero.mp hs)
    subst this
    simp [replaceCore]
  | succ n ih =>
    intro s hs
    match s with
    | [] => simp [replaceCore]
    | c :: rest =>
      rw [replaceCore]
      by_cases hp : (p :: ps).isPrefixOf (c :: rest) = true
      · rw [if_pos hp]
        obtain ⟨t, ht⟩ := List.isPrefixOf_iff_prefix.mp hp
        simp only [List.cons_append] at ht
        injection ht with hc hrest
        subst hc
        subst hrest
        have htn : t.length ≤ n := by
          simp only [List.length_cons, List.length_append] at hs
          omega
        rw [List.drop_left, ih t htn]
        simp
      · rw [if_neg hp]
        have hr : rest.length ≤ n := by
          have := hs
          simp only [List.length_cons] at this
          omega
        rw [ih rest hr]

/-- Replacing any pattern with itself rewrites the content verbatim. -/
theorem pyReplace_self (s pat : Content) : pyReplace s pat pat = s := by
  match pat with
  | [] =>
    simp only [pyReplace]
    induction s with
    | nil => rfl
    | cons c rest ih => simp [ih]
  | p :: ps => exact replaceCore_self_aux p ps s.length s le_rfl

/-- If no rule's pattern occurs in the content, the whole ordered rule
list leaves the content unchanged. -/
theorem applyRules_no_match (rules : List Rule) (content : Content)
    (h : ∀ r ∈ rules, ¬ r.1 <:+: content) :
    applyRules rules content = content := by
  induction rules with
  | nil => rfl
  | cons r rs ih =>
    unfold applyRules
    simp only [List.foldl_cons]
    rw [pyReplace_absent_pattern content r.1 r.2 (h r (by simp))]
    exact ih fun r' hr' => h r' (by simp [hr'])

/-- C1: for every initial file content and ordered rule list, if
`applyPatch` succeeds then the file's final content equals the result of
applying each rule in sequence to the original content, each rule
operating on the output of the previous one; the no-op and empty-list
cases are instances, the original content being rewritten verbatim. -/
theorem applyPatch_success_applies_rules_in_order (fs : FileSys)
    (path : String) (rules : List Rule) (w : WriteOutcome)
    (content : Content) (hc : fs path = some content)
    (hok : (applyPatch fs path rules w).result = .ok ()) :
    (applyPatch fs path rules w).fs path = some (applyRules rules content) := by
  unfold applyPatch at hok ⊢
  rw [hc] at hok ⊢
  match w with
  | .complete => simp
  | .failAfter k => simp at hok

/-- Witness for C1 at a concrete input. -/
theorem applyPatch_success_applies_rules_in_order_witness :
    fsHello "demo.txt" = some "hello".data ∧
    (applyPatch fsHello "demo.txt" [("h".data, "H".data)] .complete).fs
        "demo.txt"
      = some (applyRules [("h".data, "H".data)] "hello".data) :=
  ⟨rfl, applyPatch_success_applies_rules_in_order fsHello "demo.txt"
    [("h".data, "H".data)] .complete "hello".data rfl rfl⟩

/-- C2: applying a single rule replaces every non-overlapping occurrence
of the pattern, scanning left-to-right: at a match the replacement is
emitted and the scan resumes immediately after the consumed match, at a
non-match the head character is kept; in particular rule (aa, b) applied
to content aaa yields ba. -/
theorem pyReplace_nonoverlapping_scan :
    (∀ (p : Char) (ps repl : Content) (c : Char) (rest : Content),
        (p :: ps).isPrefixOf (c :: rest) = true →
        pyReplace (c :: rest) (p :: ps) repl
          = repl ++ pyReplace (rest.drop ps.length) (p :: ps) repl)
    ∧ (∀ (p : Char) (ps repl : Content) (c : Char) (rest : Content),
        (p :: ps).isPrefixOf (c :: rest) = false →
        pyReplace (c :: rest) (p :: ps) repl
          = c :: pyReplace rest (p :: ps) repl)
    ∧ pyReplace "aaa".data "aa".data "b".data = "ba".data := by
  refine ⟨?_, ?_, ?_⟩
  · intro p ps repl c rest h
    simp only [pyReplace]
    rw [replaceCore, if_pos h]
  · intro p ps repl c rest h
    simp only [pyReplace]
    rw [replaceCore, if_neg (by simp [h])]
  · simp [pyReplace, replaceCore]

/-- Witness for C2 at a concrete input. -/
theorem pyReplace_nonoverlapping_scan_witness :
    (('a' :: ['a']).isPrefixOf ('a' :: ['a', 'a']) = true) ∧
    pyReplace ('a' :: ['a', 'a']) ('a' :: ['a']) ['b']
      = ['b'] ++ pyReplace (List.drop (['a'] : Content).length ['a', 'a'])
          ('a' :: ['a']) ['b'] :=
  ⟨by decide,
    pyReplace_nonoverlapping_scan.1 'a' ['a'] ['b'] 'a' ['a', 'a'] (by decide)⟩

/-- C3: rules compose sequentially, each rule applied to the output of
the previous one: rules (a, b) then (b, c) applied to content a yield c. -/
theorem applyRules_sequential_composition :
    applyRules [("a".data, "b".data), ("b".data, "c".data)] "a".data
      = "c".data := by
  simp [applyRules, pyReplace, replaceCore]

/-- C4: when no rule's pattern occurs in the file's content, the operation
succeeds and leaves the content byte-for-byte identical. -/
theorem applyPatch_no_match_identity (fs : FileSys) (path : String)
    (rules : List Rule) (content : Content)
    (hc : fs path = some content)
    (hno : ∀ r ∈ rules, ¬ r.1 <:+: content) :
    (applyPatch fs path rules .complete).result = .ok () ∧
    (applyPatch fs path rules .complete).fs path = some content := by
  unfold applyPatch
  rw [hc]
  simp [applyRules_no_match rules content hno]

/-- Witness for C4 at a concrete input. -/
theorem applyPatch_no_match_identity_witness :
    (applyPatch fsDemo "demo.txt" [("ab".data, "z".data)] .complete).result
        = .ok () ∧
    (applyPatch fsDemo "demo.txt" [("ab".data, "z".data)] .complete).fs
        "demo.txt" = some "xy".data :=
  applyPatch_no_match_identity fsDemo "demo.txt" [("ab".data, "z".data)]
    "xy".data rfl (by decide)

/-- C5: applying the operation with an empty rule list succeeds and the
final content equals the original content. -/
theorem applyPatch_empty_rules (fs : FileSys) (path : String)
    (content : Content) (hc : fs path = some content) :
    (applyPatch fs path [] .complete).result = .ok () ∧
    (applyPatch fs path [] .complete).fs path = some content := by
  unfold applyPatch
  rw [hc]
  simp [applyRules]

/-- Witness for C5: content hello with no rules is rewritten as hello. -/
theorem applyPatch_empty_rules_witness :
    (applyPatch fsHello "demo.txt" [] .complete).result = .ok () ∧
    (applyPatch fsHello "demo.txt" [] .complete).fs "demo.txt"
      = some "hello".data :=
  applyPatch_empty_rules fsHello "demo.txt" "hello".data rfl

/-- C6 counterexample: the write step truncates the target before writing
(Python's `open(path, 'w')`), so a write failing after one character
leaves the file holding just that character — neither the original
content nor the fully transformed content — while the run reports an
error: the operation is not all-or-nothing under write failure. -/
theorem applyPatch_write_failure_not_atomic :
    (applyPatch fsHello "demo.txt" [("h".data, "H".data)]
        (.failAfter 1)).result = .error .WriteFailure ∧
    (applyPatch fsHello "demo.txt" [("h".data, "H".data)]
        (.failAfter 1)).fs "demo.txt" ≠ some "hello".data ∧
    (applyPatch fsHello "demo.txt" [("h".data, "H".data)]
        (.failAfter 1)).fs "demo.txt"
      ≠ some (applyRules [("h".data, "H".data)] "hello".data) := by
  refine ⟨rfl, ?_, ?_⟩ <;>
    simp [applyPatch, fsHello, applyRules, pyReplace, replaceCore]

/-- C6 amended: a failing write leaves the target holding exactly the
first k characters of the new content — always a prefix of the new
content, never interleaving old content — and the run reports exactly one
error. -/
theorem applyPatch_failAfter_leaves_new_prefix (fs : FileSys)
    (path : String) (rules : List Rule) (content : Content) (k : Nat)
    (hc : fs path = some content) :
    (applyPatch fs path rules (.failAfter k)).result
        = .error .WriteFailure ∧
    (applyPatch fs path rules (.failAfter k)).fs path
        = some ((applyRules rules content).take k) ∧
    (applyRules rules content).take k <+: applyRules rules content := by
  unfold applyPatch
  rw [hc]
  exact ⟨rfl, by simp, List.take_prefix k _⟩

/-- Witness for the amended C6 at a concrete input. -/
theorem applyPatch_failAfter_leaves_new_prefix_witness :
    (applyPatch fsHello "demo.txt" [] (.failAfter 2)).result
        = .error .WriteFailure ∧
    (applyPatch fsHello "demo.txt" [] (.failAfter 2)).fs "demo.txt"
        = some ((applyRules [] "hello".data).take 2) ∧
    (applyRules [] "hello".data).take 2 <+: applyRules [] "hello".data :=
  applyPatch_failAfter_leaves_new_prefix fsHello "demo.txt" [] "hello".data
    2 rfl

/-- C7: invoking the operation on a path with no file yields the NotFound
error and leaves the whole filesystem untouched — no write is performed,
whatever the rules and whatever the environment's write behaviour. -/
theorem applyPatch_missing_file (fs : FileSys) (path : String)
    (rules : List Rule) (w : WriteOutcome) (h : fs path = none) :
    (applyPatch fs path rules w).result = .error .NotFound ∧
    (applyPatch fs path rules w).fs = fs := by
  unfold applyPatch
  rw [h]
  exact ⟨rfl, rfl⟩

/-- Witness for C7 at a concrete input. -/
theorem applyPatch_missing_file_witness :
    (applyPatch fsEmpty "missing.txt" scriptRules .complete).result
        = .error .NotFound ∧
    (applyPatch fsEmpty "missing.txt" scriptRules .complete).fs = fsEmpty :=
  applyPatch_missing_file fsEmpty "missing.txt" scriptRules .complete rfl

/-- C8: the single hardcoded rule of the script replaces a string with
itself, so the net transformation of the file content is the identity for
every content string. -/
theorem scriptRules_net_identity (s : Content) : applyRules scriptRules s = s := by
  unfold applyRules scriptRules
  simp only [List.foldl_cons, List.foldl_nil]
  exact pyReplace_self s _

/-- C9: the final written content is a pure function of the initial file
content and the rule list: two runs over possibly different filesystems
and paths holding the same initial content end with the same final
content at their targets. -/
theorem applyPatch_deterministic (fs₁ fs₂ : FileSys) (path₁ path₂ : String)
    (rules : List Rule) (h : fs₁ path₁ = fs₂ path₂) :
    (applyPatch fs₁ path₁ rules .complete).fs path₁
      = (applyPatch fs₂ path₂ rules .complete).fs path₂ := by
  unfold applyPatch
  rw [← h]
  cases hc : fs₁ path₁ with
  | none => exact h
  | some c => simp

/-- Witness for C9 at a concrete input. -/
theorem applyPatch_deterministic_witness :
    (applyPatch fsDetA "a.txt" [("x".data, "y".data)] .complete).fs "a.txt"
      = (applyPatch fsDetB "b.txt" [("x".data, "y".data)] .complete).fs
          "b.txt" :=
  applyPatch_deterministic fsDetA fsDetB "a.txt" "b.txt"
    [("x".data, "y".data)] rfl

/-- C10: an empty pattern is not rejected: the replacement is inserted at
every position — before each character and once at the end, n+1
insertions for a content of length n. -/
theorem pyReplace_empty_pattern (s r : Content) :
    pyReplace s [] r = r ++ (s.map fun c => c :: r).flatten := by
  induction s with
  | nil => simp [pyReplace]
  | cons c rest ih =>
    simp only [pyReplace] at ih ⊢
    simp [ih]
